import Mathlib

/-!
Shallow embedding of `src/app.py` (MY-NOTE): a Streamlit front end managing
Markdown documents, templates, prompts and keyword glossaries stored in four
JSON files plus a `docs/` directory, and building an MkDocs configuration.

The filesystem is modelled as an association list of paths to file contents
plus a list of directories.  JSON store files are modelled at value level: a
`FileContent.jsonVal v` is a file whose text is valid JSON denoting `v`, a
`FileContent.text s` is a file whose text `s` is not valid JSON (every text
file the program itself writes starts with a character sequence that is not
valid JSON), and `FileContent.yamlConfig c` is the serialized MkDocs
configuration.  `datetime.now()` is passed in as an explicit date-string
parameter.  OS-level failures outside the program's own control flow
(permissions, non-UTF-8 bytes, opening a directory as a file) are not
modelled; where the model's totality papers over a Python exception at such a
corner, the definition carries a comment and the theorems carry hypotheses
keeping the claims inside the faithful domain.
-/

/-- Association-list update, matching Python dict assignment `d[k] = v`:
an existing key keeps its position, a new key is appended at the end. -/
def setA {α : Type} (l : List (String × α)) (k : String) (v : α) :
    List (String × α) :=
  match l with
  | [] => [(k, v)]
  | (k', v') :: t => if k' = k then (k, v) :: t else (k', v') :: setA t k v

/-- Association-list deletion, matching Python `del d[k]`: the key is
removed entirely (real dicts have unique keys, so removing every occurrence
agrees with removing the one entry). -/
def delA {α : Type} (l : List (String × α)) (k : String) :
    List (String × α) :=
  l.filter (fun kv => kv.1 ≠ k)

/-- Association-list lookup with decidable string equality. -/
def lookupA {α : Type} : List (String × α) → String → Option α
  | [], _ => none
  | (k', v') :: t, k => if k' = k then some v' else lookupA t k

/-- JSON values, as produced by Python's `json.load`: objects keep entry
order, matching Python dict insertion order.  Numbers are modelled as
integers (the four stores of this program only ever hold strings, lists and
objects). -/
inductive Json where
  | null : Json
  | bool (b : Bool) : Json
  | num (n : Int) : Json
  | str (s : String) : Json
  | arr (elems : List Json) : Json
  | obj (entries : List (String × Json)) : Json

namespace Json

/-- Entries of an object; `[]` for non-objects.  Used where the Python code
iterates or mutates a loaded store as a dict (a non-dict would raise a
`TypeError`/`AttributeError` there; the claims keep stores dict-shaped). -/
def entriesD : Json → List (String × Json)
  | .obj l => l
  | _ => []

/-- Whether the value is a JSON object (a Python dict). -/
def isObjB : Json → Bool
  | .obj _ => true
  | _ => false

/-- Python's `key in store` membership test on a loaded store.  On a dict it
tests keys; the claims only exercise it on dicts, so non-objects answer
`false` (Python's `in` on a list or string behaves differently). -/
def containsKey : Json → String → Bool
  | .obj l, k => l.any (fun kv => kv.1 == k)
  | _, _ => false

/-- Lookup of `j[k]` on an object; `none` when the key is absent or the value
is not an object (Python would raise `KeyError`/`TypeError`). -/
def lookupKey : Json → String → Option Json
  | .obj l, k => lookupA l k
  | _, _ => none

/-- Python truthiness of a JSON value, as used by `if templates:` in
`mkdocs_setup`. -/
def truthy : Json → Bool
  | .null => false
  | .bool b => b
  | .num n => n != 0
  | .str s => s != ""
  | .arr l => !l.isEmpty
  | .obj l => !l.isEmpty

end Json

/-- Python dict assignment `d[k] = v` on a loaded store value.  On a
non-object Python raises `TypeError`; the claims only reach this operation
in states where the store loads as a dict, so non-objects pass through. -/
def Json.insertKey (j : Json) (k : String) (v : Json) : Json :=
  match j with
  | .obj l => .obj (setA l k v)
  | other => other

/-- One entry of the `markdown_extensions` list of the MkDocs configuration:
either a plain extension name or the `{"toc": {"permalink": True}}` entry. -/
inductive MdExt where
  | plain (s : String) : MdExt
  | toc (permalink : Bool) : MdExt


/-- The `mkdocs_config` dict built by `mkdocs_setup`.  `nav` is a list of
single-key dicts, modelled as label/target pairs; `theme_name` models the
`{"name": ...}` sub-dict of `theme`. -/
structure MkdocsConfig where
  site_name : String
  theme_name : String
  nav : List (String × String)
  docs_dir : String
  plugins : List String
  markdown_extensions : List MdExt


/-- Contents of a regular file in the model (see the module docstring). -/
inductive FileContent where
  | jsonVal (v : Json) : FileContent
  | text (s : String) : FileContent
  | yamlConfig (c : MkdocsConfig) : FileContent


/-- The filesystem: regular files (path to content) and directories. -/
structure FS where
  files : List (String × FileContent)
  dirs : List String


namespace FS

/-- Python's `os.path.exists`: true for regular files and directories. -/
def pathExists (fs : FS) (p : String) : Bool :=
  fs.files.any (fun kv => kv.1 == p) || fs.dirs.any (fun d => d == p)

/-- Writing a file (`open(p, "w")` followed by writes): creates or
overwrites the regular file at `p`. -/
def writeFile (fs : FS) (p : String) (c : FileContent) : FS :=
  { fs with files := setA fs.files p c }

/-- Python's `os.remove`: removes the regular file at `p`. -/
def removeFile (fs : FS) (p : String) : FS :=
  { fs with files := delA fs.files p }

/-- Python's `os.makedirs` guarded by `not os.path.exists` as the source
always does: adds the directory when nothing exists at the path. -/
def ensureDir (fs : FS) (dname : String) : FS :=
  if fs.pathExists dname then fs else { fs with dirs := dname :: fs.dirs }

end FS

/-- Global constant `DOCS_DIR` from `app.py`. -/
def DOCS_DIR : String := "docs"
/-- Global constant `METADATA_FILE` from `app.py`. -/
def METADATA_FILE : String := "metadata.json"
/-- Global constant `TEMPLATES_FILE` from `app.py`. -/
def TEMPLATES_FILE : String := "templates.json"
/-- Global constant `PROMPTS_FILE` from `app.py`. -/
def PROMPTS_FILE : String := "prompts.json"
/-- Global constant `KEYWORDS_FILE` from `app.py`. -/
def KEYWORDS_FILE : String := "keywords.json"
/-- Global constant `MKDOCS_CONFIG` from `app.py`. -/
def MKDOCS_CONFIG : String := "mkdocs.yml"

/-- `os.path.join` for the relative paths this program uses. -/
def pathJoin (a b : String) : String := a ++ "/" ++ b

/-- `load_json` from `app.py`: if the path exists, parse it as JSON,
returning `{}` on `json.JSONDecodeError`; if the path does not exist,
return `{}`.  A `text` file is by model convention not valid JSON, hence the
decode-error branch.  The `none` inner case is a path that exists only as a
directory, where Python's `open` would raise `IsADirectoryError`; the claims
do not place directories at store paths. -/
def load_json (fs : FS) (file_path : String) : Json :=
  if fs.pathExists file_path then
    match lookupA fs.files file_path with
    | some (.jsonVal v) => v
    | some _ => Json.obj []
    | none => Json.obj []
  else Json.obj []

/-- `save_json` from `app.py`: overwrites `file_path` with the JSON dump of
the mapping `data`. -/
def save_json (fs : FS) (file_path : String) (data : List (String × Json)) :
    FS :=
  fs.writeFile file_path (.jsonVal (.obj data))

/-- Decimal digit character, `'0'` through `'9'` for `n < 10`. -/
def digitCh (n : Nat) : Char := Char.ofNat (48 + n)

/-- Fuel-driven decimal printing loop; `fuel ≥ n` always suffices because a
number has no more decimal digits than its own value (for positive `n`). -/
def natToStrAux : Nat → Nat → List Char → List Char
  | 0, _, acc => acc
  | fuel + 1, n, acc =>
    if n < 10 then digitCh n :: acc
    else natToStrAux fuel (n / 10) (digitCh (n % 10) :: acc)

/-- Decimal digit characters of `n`, most significant first, exactly as
Python interpolates a nonnegative `int` into an f-string. -/
def natChars (n : Nat) : List Char := natToStrAux (n + 1) n []

/-- Decimal string of `n`. -/
def natToStr (n : Nat) : String := String.mk (natChars n)

/-- The f-string `f"{date_str}-#{counter}.md"` from `generate_filename`,
with `date_str` passed in as `d`. -/
def docFilename (d : String) (c : Nat) : String :=
  d ++ "-#" ++ natToStr c ++ ".md"

/-- `os.path.join(DOCS_DIR, filename)` for a generated document name. -/
def docFilePath (d : String) (c : Nat) : String :=
  pathJoin DOCS_DIR (docFilename d c)

/-- The `while True` loop of `generate_filename`: starting from counter `c`,
return the first counter whose file does not currently exist.  The source
loop is unbounded; the model runs it on fuel, and among the first
`|files| + |dirs| + 1` candidates an unused one provably exists (the paths
are pairwise distinct and the filesystem is finite), so the fuel passed by
`generate_filename` never runs out. -/
def gfSearch (fs : FS) (d : String) : Nat → Nat → Nat
  | c, 0 => c
  | c, fuel + 1 =>
    if fs.pathExists (docFilePath d c) then gfSearch fs d (c + 1) fuel else c

/-- `generate_filename` from `app.py`: ensures `docs/` exists, then scans
counters from 1 for the first filename `f"{date_str}-#{counter}.md"` that
does not exist in `docs/`.  The current date string is the parameter `d`;
the possibly-extended filesystem is returned alongside the name. -/
def generate_filename (fs : FS) (d : String) : FS × String :=
  let fs1 := fs.ensureDir DOCS_DIR
  (fs1,
   docFilename d (gfSearch fs1 d 1 (fs1.files.length + fs1.dirs.length + 1)))

/-- Python `str` of a list of strings, as interpolated by `f'tags: {tags}'`:
single-quoted items, comma-separated, in square brackets.  (Python `repr`
escaping of quotes or backslashes inside a tag is not modelled; no claim
depends on the written tag text.) -/
def pyStrList (tags : List String) : String :=
  "[" ++ String.intercalate ", " (tags.map (fun t => "\x27" ++ t ++ "\x27"))
    ++ "]"

/-- The text `"\n".join(front_matter)` written by `create_document` before
the body content. -/
def frontMatterText (title category : String) (tags : List String) : String :=
  "---\n" ++ "title: \"" ++ title ++ "\"\n" ++ "category: \"" ++ category
    ++ "\"\n" ++ "tags: " ++ pyStrList tags ++ "\n" ++ "---\n"

/-- The metadata entry `{"title": ..., "category": ..., "tags": ...}` that
`create_document` registers under the generated filename. -/
def docMetaJson (title category : String) (tags : List String) : Json :=
  .obj [("title", .str title), ("category", .str category),
        ("tags", .arr (tags.map .str))]

/-- `create_document` from `app.py`: loads the metadata store, generates a
fresh filename for day `d`, writes front matter plus body to
`docs/<file_name>`, registers the metadata entry and saves the store.
Returns the new filesystem and the generated filename. -/
def create_document (fs : FS) (d : String) (title category : String)
    (tags : List String) (content : String) : FS × String :=
  let metadata := load_json fs METADATA_FILE
  let gf := generate_filename fs d
  let file_name := gf.2
  let fs2 := gf.1.writeFile (pathJoin DOCS_DIR file_name)
    (.text (frontMatterText title category tags ++ content))
  let fs3 := fs2.writeFile METADATA_FILE
    (.jsonVal (metadata.insertKey file_name (docMetaJson title category tags)))
  (fs3, file_name)

mutual

/-- Mutually with `Json.dumpList` and `Json.dumpEntries`: compact textual
form of a JSON value.  Only used when a JSON-modelled file is read back as
raw text, which the program never does for its own files; string escaping
and `json.dump` indentation are therefore not modelled. -/
def Json.dump : Json → String
  | .null => "null"
  | .bool true => "true"
  | .bool false => "false"
  | .num n => toString n
  | .str s => "\"" ++ s ++ "\""
  | .arr l => "[" ++ Json.dumpList l ++ "]"
  | .obj l => "\x7b" ++ Json.dumpEntries l ++ "\x7d"

/-- Comma-separated dump of array elements (see `Json.dump`). -/
def Json.dumpList : List Json → String
  | [] => ""
  | [x] => Json.dump x
  | x :: y :: xs => Json.dump x ++ ", " ++ Json.dumpList (y :: xs)

/-- Comma-separated dump of object entries (see `Json.dump`). -/
def Json.dumpEntries : List (String × Json) → String
  | [] => ""
  | [kv] => "\"" ++ kv.1 ++ "\": " ++ Json.dump kv.2
  | kv :: kw :: xs =>
    "\"" ++ kv.1 ++ "\": " ++ Json.dump kv.2 ++ ", "
      ++ Json.dumpEntries (kw :: xs)

end

/-- Raw text of a file, as read by `open(...).read()`.  The textual form of
the written MkDocs configuration is not modelled (the program never reads
`mkdocs.yml` back). -/
def FileContent.readText : FileContent → String
  | .text s => s
  | .jsonVal v => Json.dump v
  | .yamlConfig _ => ""

/-- `load_markdown_file` from `app.py`: returns the file text when
`docs/<file_name>` exists, otherwise the empty string.  The inner `none`
case is a path existing only as a directory, where Python's `open` would
raise; the claims exclude directories at document paths. -/
def load_markdown_file (fs : FS) (file_name : String) : String :=
  let file_path := pathJoin DOCS_DIR file_name
  if fs.pathExists file_path then
    match lookupA fs.files file_path with
    | some c => c.readText
    | none => ""
  else ""

/-- The metadata half of `delete_document`, factored out for the lemmas:
drop the entry and save the store when the filename is a key. -/
def deleteMetaStep (fs : FS) (file_name : String) : FS :=
  if (load_json fs METADATA_FILE).containsKey file_name then
    save_json fs METADATA_FILE
      (delA (load_json fs METADATA_FILE).entriesD file_name)
  else fs

/-- `delete_document` from `app.py`: drops the metadata entry (saving the
store) when present, then removes `docs/<file_name>` when present. -/
def delete_document (fs : FS) (file_name : String) : FS :=
  let fs1 := deleteMetaStep fs file_name
  let file_path := pathJoin DOCS_DIR file_name
  if fs1.pathExists file_path then fs1.removeFile file_path else fs1

/-- The default landing-page text written by `mkdocs_setup`. -/
def defaultIndexText : String :=
  "# Welcome to MY-NOTE\n\nThis is your project\x27s index page."

/-- The nav label `meta["title"]` of a metadata entry.  Python would raise
`KeyError` on a missing title and would use a non-string value as-is; the
claims restrict to well-formed metadata, where the title is a string. -/
def titleOf (j : Json) : String :=
  match j.lookupKey "title" with
  | some (.str s) => s
  | _ => ""

/-- The nav list assembled by `mkdocs_setup`, factored out for the lemmas:
Home, one entry per metadata document in store order, then conditional
entries for truthy stores. -/
def mkdocsNav (fs : FS) : List (String × String) :=
  [("Home", "index.md")]
    ++ (load_json fs METADATA_FILE).entriesD.map
        (fun kv => (titleOf kv.2, kv.1))
    ++ (if (load_json fs TEMPLATES_FILE).truthy
        then [("Templates", "templates.md")] else [])
    ++ (if (load_json fs PROMPTS_FILE).truthy
        then [("Prompts", "prompts.md")] else [])
    ++ (if (load_json fs KEYWORDS_FILE).truthy
        then [("Keywords", "keywords.md")] else [])

/-- The `mkdocs_config` dict built by `mkdocs_setup` from the four stores. -/
def mkdocsConfigOf (fs : FS) : MkdocsConfig :=
  { site_name := "MY-NOTE", theme_name := "material", nav := mkdocsNav fs,
    docs_dir := DOCS_DIR, plugins := ["search"],
    markdown_extensions := [.plain "admonition", .plain "codehilite",
      .toc true, .plain "footnotes", .plain "meta"] }

/-- `mkdocs_setup` from `app.py`: loads the four stores, builds the MkDocs
configuration (Home entry, one nav entry per metadata document in store
order, then Templates/Prompts/Keywords entries when the corresponding store
is truthy), writes `mkdocs.yml`, ensures `docs/` exists, and writes the
default `docs/index.md` only when that path does not exist. -/
def mkdocs_setup (fs : FS) : FS :=
  let fs1 := fs.writeFile MKDOCS_CONFIG (.yamlConfig (mkdocsConfigOf fs))
  let fs2 := fs1.ensureDir DOCS_DIR
  let index_file_path := pathJoin DOCS_DIR "index.md"
  if fs2.pathExists index_file_path then fs2
  else fs2.writeFile index_file_path (.text defaultIndexText)

/-- Base name of a path: the `file` component yielded by `os.walk`. -/
def baseName (p : String) : String := (p.splitOn "/").getLastD p

/-- The `.md` files found by walking `folder_path`, in file-list order
(`os.walk` order is platform-dependent; the source does not sort). -/
def mdFilesUnder (fs : FS) (folder_path : String) :
    List (String × FileContent) :=
  fs.files.filter (fun kv =>
    (folder_path ++ "/").isPrefixOf kv.1 && kv.1.endsWith ".md")

/-- One concatenated block of `merge_md_files`: heading with the file name,
the file content, and a 40-dash separator line. -/
def mergeBlock (kv : String × FileContent) : String :=
  "## " ++ baseName kv.1 ++ "\n\n" ++ kv.2.readText ++ "\n\n"
    ++ "----------------------------------------" ++ "\n\n"

/-- `merge_md_files` from `app.py`: fails with a message naming the folder
when `folder_path` does not exist; otherwise writes the header followed by
every merged block to `output_file` and reports success.  `now` stands for
`datetime.now().strftime("%Y-%m-%d %H:%M:%S")`.  (A write failure in the
`try` block would be caught and reported as a message; filesystem write
errors are not modelled.) -/
def merge_md_files (fs : FS) (folder_path output_file now : String) :
    FS × String :=
  if !fs.pathExists folder_path then
    (fs, "지정된 폴더가 존재하지 않습니다: " ++ folder_path)
  else
    let header := "# MERGED Overview (" ++ now ++ ")\n\n"
      ++ "합쳐진 폴더: " ++ folder_path ++ "\n\n"
    let body := header
      ++ String.join ((mdFilesUnder fs folder_path).map mergeBlock)
    (fs.writeFile output_file (.text body),
     "Merged 파일이 성공적으로 생성되었습니다: " ++ output_file)

/-- Outcome shown to the user by a menu action: `st.error` or `st.success`. -/
inductive UiMsg where
  | error (msg : String) : UiMsg
  | success (msg : String) : UiMsg

/-- The 템플릿 추가 branch of `main`: rejects an existing template ID before
any store mutation, otherwise inserts the record and saves the store.  (On a
non-dict store the insert would raise in Python; the claims keep the store
dict-shaped.) -/
def template_add (fs : FS) (new_id new_name new_content : String) :
    FS × UiMsg :=
  let templates := load_json fs TEMPLATES_FILE
  if templates.containsKey new_id then
    (fs, .error "이미 존재하는 템플릿 ID입니다.")
  else
    (save_json fs TEMPLATES_FILE (setA templates.entriesD new_id
        (.obj [("template_name", .str new_name),
               ("content", .str new_content)])),
     .success ("템플릿 \x27" ++ new_id ++ "\x27 추가 완료!"))

/-- The 프롬프트 추가 branch of `main`: rejects an existing prompt ID before
any store mutation, otherwise inserts the text and saves the store. -/
def prompt_add (fs : FS) (prompt_id prompt_text : String) : FS × UiMsg :=
  let prompts := load_json fs PROMPTS_FILE
  if prompts.containsKey prompt_id then
    (fs, .error "이미 존재하는 프롬프트 ID입니다.")
  else
    (save_json fs PROMPTS_FILE
       (setA prompts.entriesD prompt_id (.str prompt_text)),
     .success ("프롬프트 \x27" ++ prompt_id ++ "\x27 추가 완료!"))

/-- The 키워드 추가 branch of `main`: rejects an existing keyword before any
store mutation, otherwise inserts the description and saves the store. -/
def keyword_add (fs : FS) (keyword description : String) : FS × UiMsg :=
  let keywords := load_json fs KEYWORDS_FILE
  if keywords.containsKey keyword then
    (fs, .error "이미 존재하는 키워드입니다.")
  else
    (save_json fs KEYWORDS_FILE
       (setA keywords.entriesD keyword (.str description)),
     .success ("키워드 \x27" ++ keyword ++ "\x27 추가 완료!"))

/-- The 문서 수정 branch of `main`: on "수정 완료" it calls the same
`create_document` routine as the add branch with the edited fields.  The
selected `file_name` is used only to prefill the form and in the success
message; it is not passed to any write path. -/
def document_edit (fs : FS) (d file_name title category : String)
    (tags : List String) (content : String) : FS × String :=
  create_document fs d title category tags content

/-- Arguments of one document-create action. -/
structure DocArgs where
  title : String
  category : String
  tags : List String
  content : String

/-- One user action in the 문서 관리 menu: an add or a delete. -/
inductive DocOp where
  | add (a : DocArgs) : DocOp
  | del (file_name : String) : DocOp

/-- Run a sequence of document operations on day `d`, collecting the
filenames returned by the create calls, in order. -/
def runDocOps (d : String) : FS → List DocOp → FS × List String
  | fs, [] => (fs, [])
  | fs, .add a :: ops =>
    let r := create_document fs d a.title a.category a.tags a.content
    let rest := runDocOps d r.1 ops
    (rest.1, r.2 :: rest.2)
  | fs, .del f :: ops => runDocOps d (delete_document fs f) ops

/-- Occupancy of day `d`: exactly the counters `1..i` name existing paths
under `docs/`.  This is the invariant maintained by a run of creates. -/
def dayExists (fs : FS) (d : String) (i : Nat) : Prop :=
  ∀ c, 0 < c → (fs.pathExists (docFilePath d c) = true ↔ c ≤ i)

/-- Well-formed metadata store: a JSON object each of whose entries carries
a string `title`, as `mkdocs_setup` assumes when building nav labels. -/
def MetaTitled (j : Json) : Prop :=
  ∃ l, j = Json.obj l ∧
    ∀ kv ∈ l, ∃ t, Json.lookupKey kv.2 "title" = some (Json.str t)

/-- Demonstration state for the edit flow: one document of day 2024-01-01
together with its metadata entry. -/
def editDemoFS : FS :=
  { files := [(pathJoin DOCS_DIR "2024-01-01-#1.md", .text "old body"),
              (METADATA_FILE, .jsonVal (.obj [("2024-01-01-#1.md",
                docMetaJson "A" "C" ["x"])]))],
    dirs := [DOCS_DIR] }

/-- Demonstration state for the nav builder: the metadata store of the spec
example, all other stores absent. -/
def navDemoFS : FS :=
  { files := [(METADATA_FILE, .jsonVal (.obj [("2024-01-01-#1.md",
      docMetaJson "A" "C" ["x"])]))]
    dirs := [] }

/-! Helper lemmas about the association-list and filesystem primitives. -/

theorem lookupA_isSome_iff {α : Type} (l : List (String × α)) (q : String) :
    (lookupA l q).isSome = l.any (fun kv => kv.1 == q) := by
  induction l with
  | nil => rfl
  | cons kv t ih =>
    by_cases h : kv.1 = q
    · simp [lookupA, h]
    · simp [lookupA, h, ih]

theorem lookupA_setA_self {α : Type} (l : List (String × α)) (k : String)
    (v : α) : lookupA (setA l k v) k = some v := by
  induction l with
  | nil => simp [setA, lookupA]
  | cons kv t ih =>
    by_cases h : kv.1 = k
    · simp [setA, h, lookupA]
    · simp [setA, h, lookupA, ih]

theorem lookupA_setA_ne {α : Type} (l : List (String × α)) (k q : String)
    (v : α) (h : q ≠ k) : lookupA (setA l k v) q = lookupA l q := by
  induction l with
  | nil => simp [setA, lookupA, Ne.symm h]
  | cons kv t ih =>
    by_cases hk : kv.1 = k
    · simp [setA, hk, lookupA, Ne.symm h]
    · simp [setA, hk, lookupA, ih]

theorem lookupA_delA {α : Type} (l : List (String × α)) (k q : String) :
    lookupA (delA l k) q = if q = k then none else lookupA l q := by
  induction l with
  | nil => simp [delA, lookupA]
  | cons kv t ih =>
    simp only [delA, List.filter_cons, decide_not] at ih ⊢
    by_cases hk : kv.1 = k
    · rw [if_neg (by simp [hk])]
      rw [ih]
      by_cases hq : q = k
      · simp [hq]
      · have hkq : kv.1 ≠ q := fun he => hq (hk.symm.trans he).symm
        simp [hq, lookupA, hkq]
    · rw [if_pos (by simp [hk])]
      by_cases hq : kv.1 = q
      · have hqk : ¬ q = k := fun he => hk (hq.trans he)
        simp [lookupA, hq, hqk]
      · simp [lookupA, hq, ih]

theorem FS.pathExists_iff (fs : FS) (q : String) :
    fs.pathExists q = true ↔
      (∃ c, lookupA fs.files q = some c) ∨ q ∈ fs.dirs := by
  unfold FS.pathExists
  rw [Bool.or_eq_true]
  constructor
  · rintro (h | h)
    · left
      have : (lookupA fs.files q).isSome = true := by
        rw [lookupA_isSome_iff]; exact h
      exact Option.isSome_iff_exists.mp this
    · right
      obtain ⟨d, hd, he⟩ := List.any_eq_true.mp h
      exact (beq_iff_eq.mp he) ▸ hd
  · rintro (⟨c, h⟩ | h)
    · left
      rw [← lookupA_isSome_iff]
      simp [h]
    · right
      exact List.any_eq_true.mpr ⟨q, h, beq_iff_eq.mpr rfl⟩

theorem FS.pathExists_false_iff (fs : FS) (q : String) :
    fs.pathExists q = false ↔
      lookupA fs.files q = none ∧ q ∉ fs.dirs := by
  rw [← Bool.not_eq_true, FS.pathExists_iff]
  push_neg
  constructor
  · rintro ⟨h1, h2⟩
    refine ⟨?_, h2⟩
    cases hc : lookupA fs.files q with
    | none => rfl
    | some c => exact absurd hc (h1 c)
  · rintro ⟨h1, h2⟩
    refine ⟨fun c hc => ?_, h2⟩
    rw [h1] at hc
    cases hc

theorem FS.writeFile_files (fs : FS) (p : String) (c : FileContent) :
    (fs.writeFile p c).files = setA fs.files p c := rfl

theorem FS.writeFile_dirs (fs : FS) (p : String) (c : FileContent) :
    (fs.writeFile p c).dirs = fs.dirs := rfl

theorem FS.removeFile_files (fs : FS) (p : String) :
    (fs.removeFile p).files = delA fs.files p := rfl

theorem FS.removeFile_dirs (fs : FS) (p : String) :
    (fs.removeFile p).dirs = fs.dirs := rfl

theorem FS.ensureDir_files (fs : FS) (dn : String) :
    (fs.ensureDir dn).files = fs.files := by
  unfold FS.ensureDir
  by_cases h : fs.pathExists dn
  · simp [h]
  · simp [h]

theorem FS.pathExists_writeFile (fs : FS) (p : String) (c : FileContent)
    (q : String) :
    (fs.writeFile p c).pathExists q = true ↔
      q = p ∨ fs.pathExists q = true := by
  rw [FS.pathExists_iff, FS.pathExists_iff, FS.writeFile_files,
    FS.writeFile_dirs]
  by_cases h : q = p
  · subst h
    simp [lookupA_setA_self]
  · rw [lookupA_setA_ne fs.files p q c h]
    tauto

theorem FS.pathExists_ensureDir (fs : FS) (dn q : String) :
    (fs.ensureDir dn).pathExists q = true ↔
      q = dn ∨ fs.pathExists q = true := by
  unfold FS.ensureDir
  by_cases h : fs.pathExists dn
  · simp only [h, if_true]
    constructor
    · exact Or.inr
    · rintro (rfl | hq)
      · exact h
      · exact hq
  · rw [if_neg h]
    constructor
    · intro hq
      rcases (FS.pathExists_iff _ q).mp hq with h1 | h1
      · exact Or.inr ((FS.pathExists_iff fs q).mpr (Or.inl h1))
      · rcases List.mem_cons.mp h1 with rfl | hmem
        · exact Or.inl rfl
        · exact Or.inr ((FS.pathExists_iff fs q).mpr (Or.inr hmem))
    · rintro (rfl | hq)
      · exact (FS.pathExists_iff _ q).mpr (Or.inr (List.mem_cons_self _ _))
      · rcases (FS.pathExists_iff fs q).mp hq with h1 | h1
        · exact (FS.pathExists_iff _ q).mpr (Or.inl h1)
        · exact (FS.pathExists_iff _ q).mpr
            (Or.inr (List.mem_cons_of_mem _ h1))

theorem FS.pathExists_ensureDir_self (fs : FS) (dn : String) :
    (fs.ensureDir dn).pathExists dn = true :=
  (fs.pathExists_ensureDir dn dn).mpr (Or.inl rfl)

/-! Lemmas about the decimal printer and about generated paths. -/

theorem natToStrAux_eq (n : Nat) : ∀ fuel acc, n < fuel →
    natToStrAux fuel n acc = natChars n ++ acc := by
  induction n using Nat.strong_induction_on with
  | _ n ih =>
    intro fuel acc hf
    match fuel with
    | f + 1 =>
      by_cases h10 : n < 10
      · simp [natToStrAux, h10, natChars]
      · have hdiv : n / 10 < n := Nat.div_lt_self (by omega) (by omega)
        have hn1 : n / 10 < f := by omega
        have hn2 : n / 10 < n := hdiv
        simp only [natToStrAux, h10, if_false, natChars]
        rw [ih (n / 10) hdiv f (digitCh (n % 10) :: acc) hn1]
        rw [ih (n / 10) hdiv n [digitCh (n % 10)] (by omega)]
        simp

theorem natChars_lt10 (n : Nat) (h : n < 10) : natChars n = [digitCh n] := by
  simp [natChars, natToStrAux, h]

theorem natChars_ge10 (n : Nat) (h : 10 ≤ n) :
    natChars n = natChars (n / 10) ++ [digitCh (n % 10)] := by
  have h1 : ¬ n < 10 := by omega
  show natToStrAux (n + 1) n [] = _
  simp only [natToStrAux, h1, if_false]
  exact natToStrAux_eq (n / 10) n [digitCh (n % 10)]
    (Nat.div_lt_self (by omega) (by omega))

theorem natChars_ne_nil (n : Nat) : natChars n ≠ [] := by
  by_cases h : n < 10
  · rw [natChars_lt10 n h]; simp
  · rw [natChars_ge10 n (by omega)]; simp

theorem digitCh_inj :
    ∀ a, a < 10 → ∀ b, b < 10 → digitCh a = digitCh b → a = b := by decide

theorem natChars_inj : ∀ a b : Nat, natChars a = natChars b → a = b := by
  intro a
  induction a using Nat.strong_induction_on with
  | _ a ih =>
    intro b h
    by_cases ha : a < 10 <;> by_cases hb : b < 10
    · rw [natChars_lt10 a ha, natChars_lt10 b hb] at h
      injection h with hh
      exact digitCh_inj a ha b hb hh
    · rw [natChars_lt10 a ha, natChars_ge10 b (by omega)] at h
      have hlen := congrArg List.length h
      simp only [List.length_append, List.length_cons, List.length_nil]
        at hlen
      exact absurd (List.eq_nil_of_length_eq_zero (by omega))
        (natChars_ne_nil (b / 10))
    · rw [natChars_ge10 a (by omega), natChars_lt10 b hb] at h
      have hlen := congrArg List.length h
      simp only [List.length_append, List.length_cons, List.length_nil]
        at hlen
      exact absurd (List.eq_nil_of_length_eq_zero (by omega))
        (natChars_ne_nil (a / 10))
    · rw [natChars_ge10 a (by omega), natChars_ge10 b (by omega)] at h
      have h2 := congrArg List.reverse h
      simp only [List.reverse_append, List.reverse_cons, List.reverse_nil,
        List.nil_append, List.singleton_append] at h2
      injection h2 with hhd htl
      have hm : a % 10 = b % 10 :=
        digitCh_inj _ (Nat.mod_lt _ (by omega)) _ (Nat.mod_lt _ (by omega)) hhd
      have hq : a / 10 = b / 10 :=
        ih (a / 10) (Nat.div_lt_self (by omega) (by omega)) (b / 10)
          (List.reverse_injective htl)
      omega

theorem natToStr_inj (a b : Nat) (h : natToStr a = natToStr b) : a = b :=
  natChars_inj a b (congrArg String.data h)

theorem pathJoin_right_inj (a x y : String)
    (h : pathJoin a x = pathJoin a y) : x = y := by
  have hd := congrArg String.data h
  simp only [pathJoin, String.data_append] at hd
  exact String.ext (List.append_cancel_left hd)

theorem docFilename_inj (d : String) (a b : Nat)
    (h : docFilename d a = docFilename d b) : a = b := by
  have hd := congrArg String.data h
  simp only [docFilename, String.data_append, List.append_assoc] at hd
  have h1 := List.append_cancel_left hd
  have h2 := List.append_cancel_left h1
  have h3 := List.append_cancel_right h2
  exact natToStr_inj a b (String.ext h3)

theorem docFilePath_inj (d : String) (a b : Nat)
    (h : docFilePath d a = docFilePath d b) : a = b :=
  docFilename_inj d a b (pathJoin_right_inj DOCS_DIR _ _ h)

theorem pathJoin_docs_data (x : String) :
    (pathJoin DOCS_DIR x).data = 'd' :: 'o' :: 'c' :: 's' :: '/' :: x.data := by
  show ("docs/" ++ x).data = _
  rw [String.data_append]
  rfl

theorem pathJoin_docs_ne (x t : String) (h : t.data.head? ≠ some 'd') :
    pathJoin DOCS_DIR x ≠ t := by
  intro he
  apply h
  rw [← he, pathJoin_docs_data]
  rfl

theorem pathJoin_docs_ne_docs (x : String) :
    pathJoin DOCS_DIR x ≠ DOCS_DIR := by
  intro he
  have hlen := congrArg (fun s => s.data.length) he
  simp only [pathJoin_docs_data, List.length_cons] at hlen
  simp [DOCS_DIR] at hlen

/-! Lemmas about the filename search loop of `generate_filename`. -/

theorem lookupA_mem_keys {α : Type} (l : List (String × α)) (q : String)
    (c : α) (h : lookupA l q = some c) : q ∈ l.map Prod.fst := by
  induction l with
  | nil => cases h
  | cons kv t ih =>
    rw [List.map_cons]
    by_cases hk : kv.1 = q
    · exact List.mem_cons.mpr (Or.inl hk.symm)
    · simp only [lookupA, hk, if_false] at h
      exact List.mem_cons_of_mem _ (ih h)

theorem gfSearch_spec (fs : FS) (d : String) :
    ∀ fuel c,
      (∃ j, j < fuel ∧ fs.pathExists (docFilePath d (c + j)) = false) →
      c ≤ gfSearch fs d c fuel ∧
      fs.pathExists (docFilePath d (gfSearch fs d c fuel)) = false ∧
      ∀ j, c ≤ j → j < gfSearch fs d c fuel →
        fs.pathExists (docFilePath d j) = true := by
  intro fuel
  induction fuel with
  | zero =>
    rintro c ⟨j, hj, _⟩
    omega
  | succ f ih =>
    rintro c ⟨j, hj, hfree⟩
    by_cases hc : fs.pathExists (docFilePath d c) = true
    · have hj0 : j ≠ 0 := by
        intro h0
        subst h0
        rw [Nat.add_zero] at hfree
        rw [hc] at hfree
        cases hfree
      obtain ⟨j', rfl⟩ : ∃ j', j = j' + 1 := ⟨j - 1, by omega⟩
      have hex : ∃ j2, j2 < f ∧
          fs.pathExists (docFilePath d (c + 1 + j2)) = false :=
        ⟨j', by omega,
         by rw [show c + 1 + j' = c + (j' + 1) by omega]; exact hfree⟩
      have hr := ih (c + 1) hex
      have hunf : gfSearch fs d c (f + 1) = gfSearch fs d (c + 1) f := by
        simp [gfSearch, hc]
      rw [hunf]
      refine ⟨by have := hr.1; omega, hr.2.1, ?_⟩
      intro j2 hcj hjr
      by_cases hjc : j2 = c
      · subst hjc
        exact hc
      · exact hr.2.2 j2 (by omega) hjr
    · have hcf : fs.pathExists (docFilePath d c) = false := by
        cases hpe : fs.pathExists (docFilePath d c)
        · rfl
        · exact absurd hpe hc
      have hunf : gfSearch fs d c (f + 1) = c := by
        simp [gfSearch, hcf]
      rw [hunf]
      exact ⟨Nat.le_refl c, hcf, fun j2 h1 h2 => by omega⟩

theorem exists_unused (fs : FS) (d : String) :
    ∃ j, j < fs.files.length + fs.dirs.length + 1 ∧
      fs.pathExists (docFilePath d (1 + j)) = false := by
  by_contra hall
  push_neg at hall
  have hall2 : ∀ j, j < fs.files.length + fs.dirs.length + 1 →
      fs.pathExists (docFilePath d (1 + j)) = true := by
    intro j hj
    cases hpe : fs.pathExists (docFilePath d (1 + j))
    · exact absurd hpe (hall j hj)
    · rfl
  have hinj : Function.Injective (fun j : Nat => docFilePath d (1 + j)) := by
    intro a b hab
    have := docFilePath_inj d (1 + a) (1 + b) hab
    omega
  have hnd : ((List.range (fs.files.length + fs.dirs.length + 1)).map
      (fun j => docFilePath d (1 + j))).Nodup :=
    List.Nodup.map hinj (List.nodup_range _)
  have hsub : ((List.range (fs.files.length + fs.dirs.length + 1)).map
      (fun j => docFilePath d (1 + j))) ⊆
      fs.files.map Prod.fst ++ fs.dirs := by
    intro p hp
    obtain ⟨j, hjr, rfl⟩ := List.mem_map.mp hp
    have hj : j < fs.files.length + fs.dirs.length + 1 :=
      List.mem_range.mp hjr
    have hpe := hall2 j hj
    rcases (FS.pathExists_iff fs _).mp hpe with ⟨c, hcl⟩ | hd2
    · exact List.mem_append_left _ (lookupA_mem_keys _ _ _ hcl)
    · exact List.mem_append_right _ hd2
  have hle := (List.Nodup.subperm hnd hsub).length_le
  simp only [List.length_map, List.length_range, List.length_append] at hle
  omega

theorem generate_filename_spec (fs : FS) (d : String) :
    ∃ c, 0 < c ∧ (generate_filename fs d).2 = docFilename d c ∧
      (generate_filename fs d).1 = fs.ensureDir DOCS_DIR ∧
      (fs.ensureDir DOCS_DIR).pathExists (docFilePath d c) = false ∧
      ∀ j, 0 < j → j < c →
        (fs.ensureDir DOCS_DIR).pathExists (docFilePath d j) = true := by
  obtain ⟨j, hj, hfree⟩ := exists_unused (fs.ensureDir DOCS_DIR) d
  have hspec := gfSearch_spec (fs.ensureDir DOCS_DIR) d
    ((fs.ensureDir DOCS_DIR).files.length +
      (fs.ensureDir DOCS_DIR).dirs.length + 1) 1 ⟨j, hj, hfree⟩
  refine ⟨gfSearch (fs.ensureDir DOCS_DIR) d 1
      ((fs.ensureDir DOCS_DIR).files.length +
        (fs.ensureDir DOCS_DIR).dirs.length + 1),
    by have := hspec.1; omega, rfl, rfl, hspec.2.1, ?_⟩
  intro j2 h0 hlt
  exact hspec.2.2 j2 (by omega) hlt

/-! Stability of existence checks and loads under unrelated writes. -/

theorem FS.pathExists_writeFile_other (fs : FS) (p : String)
    (c : FileContent) (q : String) (h : q ≠ p) :
    (fs.writeFile p c).pathExists q = fs.pathExists q := by
  cases hq : fs.pathExists q
  · rw [FS.pathExists_false_iff] at hq ⊢
    rw [FS.writeFile_files, FS.writeFile_dirs]
    exact ⟨by rw [lookupA_setA_ne _ _ _ _ h]; exact hq.1, hq.2⟩
  · exact (FS.pathExists_writeFile fs p c q).mpr (Or.inr hq)

theorem FS.pathExists_removeFile_other (fs : FS) (p q : String)
    (h : q ≠ p) :
    (fs.removeFile p).pathExists q = fs.pathExists q := by
  cases hq : fs.pathExists q
  · rw [FS.pathExists_false_iff] at hq ⊢
    rw [FS.removeFile_files, FS.removeFile_dirs]
    refine ⟨?_, hq.2⟩
    rw [lookupA_delA, if_neg h]
    exact hq.1
  · rw [FS.pathExists_iff]
    rcases (FS.pathExists_iff fs q).mp hq with ⟨c, hcl⟩ | hd2
    · refine Or.inl ⟨c, ?_⟩
      rw [FS.removeFile_files, lookupA_delA, if_neg h]
      exact hcl
    · exact Or.inr hd2

theorem FS.pathExists_ensureDir_other (fs : FS) (dn q : String)
    (h : q ≠ dn) :
    (fs.ensureDir dn).pathExists q = fs.pathExists q := by
  cases hq : fs.pathExists q
  · cases hl : (fs.ensureDir dn).pathExists q
    · rfl
    · exfalso
      rcases (FS.pathExists_ensureDir fs dn q).mp hl with rfl | hpe
      · exact h rfl
      · rw [hq] at hpe
        cases hpe
  · exact (FS.pathExists_ensureDir fs dn q).mpr (Or.inr hq)

theorem load_json_writeFile_self (fs : FS) (p : String) (v : Json) :
    load_json (fs.writeFile p (.jsonVal v)) p = v := by
  have hl : lookupA (fs.writeFile p (.jsonVal v)).files p
      = some (.jsonVal v) := by
    rw [FS.writeFile_files]
    exact lookupA_setA_self _ _ _
  have hpe : (fs.writeFile p (.jsonVal v)).pathExists p = true :=
    (FS.pathExists_iff _ _).mpr (Or.inl ⟨_, hl⟩)
  simp [load_json, hpe, hl]

theorem load_json_writeFile_other (fs : FS) (p q : String)
    (c : FileContent) (h : q ≠ p) :
    load_json (fs.writeFile p c) q = load_json fs q := by
  unfold load_json
  rw [FS.pathExists_writeFile_other fs p c q h, FS.writeFile_files,
    lookupA_setA_ne _ _ _ _ h]

theorem load_json_removeFile_other (fs : FS) (p q : String) (h : q ≠ p) :
    load_json (fs.removeFile p) q = load_json fs q := by
  unfold load_json
  rw [FS.pathExists_removeFile_other fs p q h, FS.removeFile_files,
    lookupA_delA, if_neg h]

theorem load_json_ensureDir_other (fs : FS) (dn q : String) (h : q ≠ dn) :
    load_json (fs.ensureDir dn) q = load_json fs q := by
  unfold load_json
  rw [FS.pathExists_ensureDir_other fs dn q h, FS.ensureDir_files]

/-! The per-day behaviour of `create_document`. -/

theorem create_document_eq (fs : FS) (d title category : String)
    (tags : List String) (content : String) :
    create_document fs d title category tags content =
      (((generate_filename fs d).1.writeFile
          (pathJoin DOCS_DIR (generate_filename fs d).2)
          (.text (frontMatterText title category tags ++ content))).writeFile
         METADATA_FILE
         (.jsonVal ((load_json fs METADATA_FILE).insertKey
           (generate_filename fs d).2 (docMetaJson title category tags))),
       (generate_filename fs d).2) := rfl

theorem create_document_step (fs : FS) (d : String) (i : Nat)
    (title category : String) (tags : List String) (content : String)
    (hinv : dayExists fs d i) :
    (create_document fs d title category tags content).2
      = docFilename d (i + 1) ∧
    dayExists (create_document fs d title category tags content).1 d
      (i + 1) := by
  obtain ⟨c, hc0, hname, hfst, hfree, hprev⟩ := generate_filename_spec fs d
  have hinv1 : dayExists (fs.ensureDir DOCS_DIR) d i := by
    intro c2 hc2
    rw [FS.pathExists_ensureDir_other fs DOCS_DIR (docFilePath d c2)
      (pathJoin_docs_ne_docs _)]
    exact hinv c2 hc2
  have hci : c = i + 1 := by
    have h1 : ¬ c ≤ i := by
      intro hle
      have hpe := (hinv1 c hc0).mpr hle
      rw [hfree] at hpe
      cases hpe
    by_cases h2 : c ≤ i + 1
    · omega
    · exfalso
      have hpe := hprev (i + 1) (by omega) (by omega)
      have h3 := (hinv1 (i + 1) (by omega)).mp hpe
      omega
  subst hci
  refine ⟨by rw [create_document_eq]; exact hname, ?_⟩
  intro c2 hc2
  rw [create_document_eq]
  rw [FS.pathExists_writeFile_other _ METADATA_FILE _ (docFilePath d c2)
    (pathJoin_docs_ne _ _ (by decide))]
  rw [hfst, hname]
  by_cases hc2i : c2 = i + 1
  · subst hc2i
    constructor
    · intro _
      omega
    · intro _
      exact (FS.pathExists_writeFile _ _ _ _).mpr (Or.inl rfl)
  · have hpathne : docFilePath d c2 ≠ pathJoin DOCS_DIR (docFilename d (i + 1)) := by
      intro he
      exact hc2i (docFilePath_inj d c2 (i + 1) he)
    rw [FS.pathExists_writeFile_other _ _ _ _ hpathne]
    rw [hinv1 c2 hc2]
    omega

theorem runDocOps_creates (d : String) (as : List DocArgs) :
    ∀ (fs : FS) (i : Nat), dayExists fs d i →
      (runDocOps d fs (as.map DocOp.add)).2
        = (List.range as.length).map (fun j => docFilename d (i + j + 1)) ∧
      dayExists (runDocOps d fs (as.map DocOp.add)).1 d (i + as.length) := by
  induction as with
  | nil =>
    intro fs i hinv
    exact ⟨rfl, by simpa using hinv⟩
  | cons a as ih =>
    intro fs i hinv
    have hstep :=
      create_document_step fs d i a.title a.category a.tags a.content hinv
    have hr := ih (create_document fs d a.title a.category a.tags a.content).1
      (i + 1) hstep.2
    simp only [List.map_cons, runDocOps]
    constructor
    · rw [hstep.1, hr.1, List.length_cons, List.range_succ_eq_map,
        List.map_cons, List.map_map]
      refine congrArg₂ List.cons ?_ ?_
      · show docFilename d (i + 1) = docFilename d (i + 0 + 1)
        rw [Nat.add_zero]
      · congr 1
        funext j
        show docFilename d (i + 1 + j + 1) = docFilename d (i + (j + 1) + 1)
        rw [show i + 1 + j + 1 = i + (j + 1) + 1 from by omega]
    · have harith : i + 1 + as.length = i + (as.length + 1) := by omega
      rw [List.length_cons, ← harith]
      exact hr.2

/-! Lemmas about `delete_document` and `mkdocs_setup`. -/

theorem delete_document_eq (fs : FS) (f : String) :
    delete_document fs f =
      if (deleteMetaStep fs f).pathExists (pathJoin DOCS_DIR f) then
        (deleteMetaStep fs f).removeFile (pathJoin DOCS_DIR f)
      else deleteMetaStep fs f := rfl

theorem deleteMetaStep_dirs (fs : FS) (f : String) :
    (deleteMetaStep fs f).dirs = fs.dirs := by
  unfold deleteMetaStep
  split
  · rfl
  · rfl

theorem delete_document_dirs (fs : FS) (f : String) :
    (delete_document fs f).dirs = fs.dirs := by
  rw [delete_document_eq]
  split
  · rw [FS.removeFile_dirs, deleteMetaStep_dirs]
  · rw [deleteMetaStep_dirs]

theorem containsKey_obj_delA (l : List (String × Json)) (f : String) :
    (Json.obj (delA l f)).containsKey f = false := by
  induction l with
  | nil => rfl
  | cons kv t ih =>
    simp only [delA, List.filter_cons, decide_not] at ih ⊢
    by_cases hk : kv.1 = f
    · rw [if_neg (by simp [hk])]
      exact ih
    · rw [if_pos (by simp [hk])]
      simp only [Json.containsKey, List.any_cons, Bool.or_eq_false_iff]
        at ih ⊢
      exact ⟨by simp [hk], ih⟩

theorem deleteMetaStep_contains (fs : FS) (f : String) :
    (load_json (deleteMetaStep fs f) METADATA_FILE).containsKey f
      = false := by
  unfold deleteMetaStep
  by_cases h : (load_json fs METADATA_FILE).containsKey f = true
  · rw [if_pos h]
    unfold save_json
    rw [load_json_writeFile_self]
    exact containsKey_obj_delA _ _
  · rw [if_neg h]
    cases hc : (load_json fs METADATA_FILE).containsKey f
    · rfl
    · exact absurd hc h

theorem delete_document_not_exists (fs : FS) (f : String)
    (hdir : pathJoin DOCS_DIR f ∉ fs.dirs) :
    (delete_document fs f).pathExists (pathJoin DOCS_DIR f) = false := by
  rw [delete_document_eq]
  by_cases h : (deleteMetaStep fs f).pathExists (pathJoin DOCS_DIR f) = true
  · rw [if_pos h]
    rw [FS.pathExists_false_iff]
    constructor
    · rw [FS.removeFile_files, lookupA_delA, if_pos rfl]
    · rw [FS.removeFile_dirs, deleteMetaStep_dirs]
      exact hdir
  · rw [if_neg h]
    cases hpe : (deleteMetaStep fs f).pathExists (pathJoin DOCS_DIR f)
    · rfl
    · exact absurd hpe h

theorem delete_document_meta_contains (fs : FS) (f : String) :
    (load_json (delete_document fs f) METADATA_FILE).containsKey f
      = false := by
  rw [delete_document_eq]
  split
  · rw [load_json_removeFile_other _ _ _
      (Ne.symm (pathJoin_docs_ne _ _ (by decide)))]
    exact deleteMetaStep_contains fs f
  · exact deleteMetaStep_contains fs f

/-! Claim theorems. -/

/-- C4: for every filesystem state, path, and mapping from string keys to
JSON values, `save_json` followed by `load_json` on the same path returns a
mapping equal to the one saved (the round-trip law, stated at the JSON
value level at which the filesystem model stores JSON files). -/
theorem save_json_load_json_roundtrip (fs : FS) (path : String)
    (m : List (String × Json)) :
    load_json (save_json fs path m) path = Json.obj m :=
  load_json_writeFile_self fs path (Json.obj m)

/-- C5: `load_json` returns the empty mapping, raising no error, whenever
nothing exists at the path or the file content fails to parse as JSON. -/
theorem load_json_missing_or_malformed (fs : FS) (p : String)
    (h : fs.pathExists p = false ∨
      ∃ s, lookupA fs.files p = some (FileContent.text s)) :
    load_json fs p = Json.obj [] := by
  rcases h with h | ⟨s, h⟩
  · simp [load_json, h]
  · have hpe : fs.pathExists p = true :=
      (FS.pathExists_iff fs p).mpr (Or.inl ⟨_, h⟩)
    simp [load_json, hpe, h]

/-- Witness for C5: a missing store file and a malformed store file both
load as the empty mapping. -/
theorem load_json_missing_or_malformed_witness :
    load_json { files := [], dirs := [] } "metadata.json" = Json.obj [] ∧
    load_json { files := [("metadata.json", FileContent.text "not json")]
                dirs := [] } "metadata.json" = Json.obj [] :=
  ⟨load_json_missing_or_malformed _ _ (Or.inl rfl),
   load_json_missing_or_malformed _ _ (Or.inr ⟨"not json", rfl⟩)⟩

/-- C10: a file whose content is valid JSON but not a JSON object is
returned by `load_json` unchanged rather than as an empty mapping: the
declared dict return type is not enforced at the interface. -/
theorem load_json_nonobject_passthrough :
    load_json { files := [("data.json",
                  FileContent.jsonVal (Json.arr [Json.num 1, Json.str "x"]))]
                dirs := [] } "data.json"
      = Json.arr [Json.num 1, Json.str "x"] ∧
    ∀ l : List (String × Json),
      Json.arr [Json.num 1, Json.str "x"] ≠ Json.obj l := by
  constructor
  · rfl
  · intro l h
    exact Json.noConfusion h

/-- C8: merging from a nonexistent source directory returns the failure
message naming that directory and returns the filesystem unchanged, so no
output file is created or written. -/
theorem merge_md_files_missing_dir (fs : FS) (folder out now : String)
    (h : fs.pathExists folder = false) :
    merge_md_files fs folder out now =
      (fs, "지정된 폴더가 존재하지 않습니다: " ++ folder) := by
  simp [merge_md_files, h]

/-- Witness for C8 at the folder `/no/such/dir` of the spec example. -/
theorem merge_md_files_missing_dir_witness :
    merge_md_files { files := [], dirs := [] } "/no/such/dir"
        "merged_overview.md" "2024-01-01 00:00:00" =
      ({ files := [], dirs := [] },
       "지정된 폴더가 존재하지 않습니다: " ++ "/no/such/dir") :=
  merge_md_files_missing_dir { files := [], dirs := [] } "/no/such/dir"
    "merged_overview.md" "2024-01-01 00:00:00" rfl

/-- C6: adding a template, prompt, or keyword whose ID already exists in
its store is rejected with the duplicate-ID error before any mutation: the
filesystem is returned unchanged, so the existing record and the store file
are untouched. -/
theorem duplicate_add_rejected (fs : FS)
    (idT nameT contentT idP textP kw desc : String)
    (hT : (load_json fs TEMPLATES_FILE).containsKey idT = true)
    (hP : (load_json fs PROMPTS_FILE).containsKey idP = true)
    (hK : (load_json fs KEYWORDS_FILE).containsKey kw = true) :
    template_add fs idT nameT contentT
      = (fs, UiMsg.error "이미 존재하는 템플릿 ID입니다.") ∧
    prompt_add fs idP textP
      = (fs, UiMsg.error "이미 존재하는 프롬프트 ID입니다.") ∧
    keyword_add fs kw desc
      = (fs, UiMsg.error "이미 존재하는 키워드입니다.") := by
  refine ⟨?_, ?_, ?_⟩
  · simp [template_add, hT]
  · simp [prompt_add, hP]
  · simp [keyword_add, hK]

/-- Witness for C6: concrete stores each already holding the offered ID. -/
theorem duplicate_add_rejected_witness :
    template_add
        { files := [("templates.json", FileContent.jsonVal (Json.obj
            [("t1", Json.obj [("template_name", Json.str "T"),
              ("content", Json.str "body")])])),
          ("prompts.json", FileContent.jsonVal (Json.obj
            [("p1", Json.str "ask")])),
          ("keywords.json", FileContent.jsonVal (Json.obj
            [("k1", Json.str "desc")]))], dirs := [] }
        "t1" "T2" "other body"
      = ({ files := [("templates.json", FileContent.jsonVal (Json.obj
            [("t1", Json.obj [("template_name", Json.str "T"),
              ("content", Json.str "body")])])),
          ("prompts.json", FileContent.jsonVal (Json.obj
            [("p1", Json.str "ask")])),
          ("keywords.json", FileContent.jsonVal (Json.obj
            [("k1", Json.str "desc")]))], dirs := [] },
         UiMsg.error "이미 존재하는 템플릿 ID입니다.") :=
  (duplicate_add_rejected _ "t1" "T2" "other body" "p1" "x" "k1" "y"
    (by decide) (by decide) (by decide)).1

/-- C7: after `delete_document`, reading the same filename returns the
empty string and the filename is no longer a key of the metadata store;
deleting again changes nothing, and deleting when the entry and the file
are already absent is a no-op.  The document path is assumed not to name a
directory (there Python's `open`/`os.remove` behave differently). -/
theorem delete_document_read_empty_idempotent (fs : FS) (f : String)
    (hdir : pathJoin DOCS_DIR f ∉ fs.dirs) :
    load_markdown_file (delete_document fs f) f = "" ∧
    (load_json (delete_document fs f) METADATA_FILE).containsKey f
      = false ∧
    delete_document (delete_document fs f) f = delete_document fs f ∧
    ((load_json fs METADATA_FILE).containsKey f = false →
      fs.pathExists (pathJoin DOCS_DIR f) = false →
      delete_document fs f = fs) := by
  have hne := delete_document_not_exists fs f hdir
  refine ⟨?_, delete_document_meta_contains fs f, ?_, ?_⟩
  · simp [load_markdown_file, hne]
  · have hDm := delete_document_meta_contains fs f
    rw [delete_document_eq (delete_document fs f) f]
    have hstep : deleteMetaStep (delete_document fs f) f
        = delete_document fs f := by
      unfold deleteMetaStep
      rw [if_neg (by rw [hDm]; exact Bool.false_ne_true)]
    rw [hstep]
    rw [if_neg (by rw [hne]; exact Bool.false_ne_true)]
  · intro h1 h2
    rw [delete_document_eq]
    have hstep : deleteMetaStep fs f = fs := by
      unfold deleteMetaStep
      rw [if_neg (by rw [h1]; exact Bool.false_ne_true)]
    rw [hstep]
    rw [if_neg (by rw [h2]; exact Bool.false_ne_true)]

/-- Witness for C7 on a concrete one-document state. -/
theorem delete_document_read_empty_idempotent_witness :
    load_markdown_file (delete_document editDemoFS "2024-01-01-#1.md")
        "2024-01-01-#1.md" = "" ∧
    (load_json (delete_document editDemoFS "2024-01-01-#1.md")
        METADATA_FILE).containsKey "2024-01-01-#1.md" = false ∧
    delete_document (delete_document editDemoFS "2024-01-01-#1.md")
        "2024-01-01-#1.md"
      = delete_document editDemoFS "2024-01-01-#1.md" ∧
    ((load_json editDemoFS METADATA_FILE).containsKey "2024-01-01-#1.md"
        = false →
      editDemoFS.pathExists (pathJoin DOCS_DIR "2024-01-01-#1.md")
        = false →
      delete_document editDemoFS "2024-01-01-#1.md" = editDemoFS) :=
  delete_document_read_empty_idempotent editDemoFS "2024-01-01-#1.md"
    (by decide)

theorem mkdocs_setup_eq (fs : FS) :
    mkdocs_setup fs =
      (if ((fs.writeFile MKDOCS_CONFIG
            (.yamlConfig (mkdocsConfigOf fs))).ensureDir
            DOCS_DIR).pathExists (pathJoin DOCS_DIR "index.md") then
        (fs.writeFile MKDOCS_CONFIG
            (.yamlConfig (mkdocsConfigOf fs))).ensureDir DOCS_DIR
      else
        ((fs.writeFile MKDOCS_CONFIG
            (.yamlConfig (mkdocsConfigOf fs))).ensureDir
            DOCS_DIR).writeFile (pathJoin DOCS_DIR "index.md")
          (.text defaultIndexText)) := rfl

/-- C9: `mkdocs_setup` guarantees the docs directory exists afterwards and
the landing file `docs/index.md` exists afterwards; the landing file gets
the default text only when it was absent, and an existing landing file is
returned with its content unchanged, so no later invocation overwrites it.
The hypotheses keep `docs` from being a regular file and the landing path
from being a directory (OS corners the model does not track). -/
theorem mkdocs_setup_docs_and_index (fs : FS)
    (hd : lookupA fs.files DOCS_DIR = none)
    (hi : pathJoin DOCS_DIR "index.md" ∉ fs.dirs) :
    DOCS_DIR ∈ (mkdocs_setup fs).dirs ∧
    (∃ c, lookupA (mkdocs_setup fs).files (pathJoin DOCS_DIR "index.md")
        = some c) ∧
    (∀ c0, lookupA fs.files (pathJoin DOCS_DIR "index.md") = some c0 →
      lookupA (mkdocs_setup fs).files (pathJoin DOCS_DIR "index.md")
        = some c0) ∧
    (lookupA fs.files (pathJoin DOCS_DIR "index.md") = none →
      lookupA (mkdocs_setup fs).files (pathJoin DOCS_DIR "index.md")
        = some (FileContent.text defaultIndexText)) := by
  have h1f : lookupA (fs.writeFile MKDOCS_CONFIG
      (.yamlConfig (mkdocsConfigOf fs))).files (pathJoin DOCS_DIR "index.md")
      = lookupA fs.files (pathJoin DOCS_DIR "index.md") := by
    rw [FS.writeFile_files, lookupA_setA_ne _ _ _ _ (by decide)]
  have h1d : lookupA (fs.writeFile MKDOCS_CONFIG
      (.yamlConfig (mkdocsConfigOf fs))).files DOCS_DIR = none := by
    rw [FS.writeFile_files, lookupA_setA_ne _ _ _ _ (by decide)]
    exact hd
  have hdd : DOCS_DIR ∈ ((fs.writeFile MKDOCS_CONFIG
      (.yamlConfig (mkdocsConfigOf fs))).ensureDir DOCS_DIR).dirs := by
    unfold FS.ensureDir
    by_cases hex : (fs.writeFile MKDOCS_CONFIG
        (.yamlConfig (mkdocsConfigOf fs))).pathExists DOCS_DIR = true
    · rw [if_pos hex]
      rcases (FS.pathExists_iff _ _).mp hex with ⟨c, hc⟩ | hmem
      · rw [h1d] at hc
        cases hc
      · exact hmem
    · rw [if_neg hex]
      exact List.mem_cons_self _ _
  have hnd2 : pathJoin DOCS_DIR "index.md" ∉ ((fs.writeFile MKDOCS_CONFIG
      (.yamlConfig (mkdocsConfigOf fs))).ensureDir DOCS_DIR).dirs := by
    unfold FS.ensureDir
    by_cases hex : (fs.writeFile MKDOCS_CONFIG
        (.yamlConfig (mkdocsConfigOf fs))).pathExists DOCS_DIR = true
    · rw [if_pos hex]
      exact hi
    · rw [if_neg hex]
      intro hmem
      rcases List.mem_cons.mp hmem with he | hmem2
      · exact absurd he (by decide)
      · exact hi hmem2
  have h2f : ((fs.writeFile MKDOCS_CONFIG
      (.yamlConfig (mkdocsConfigOf fs))).ensureDir DOCS_DIR).files
      = (fs.writeFile MKDOCS_CONFIG
        (.yamlConfig (mkdocsConfigOf fs))).files := FS.ensureDir_files _ _
  rw [mkdocs_setup_eq]
  by_cases hpe : ((fs.writeFile MKDOCS_CONFIG
      (.yamlConfig (mkdocsConfigOf fs))).ensureDir DOCS_DIR).pathExists
      (pathJoin DOCS_DIR "index.md") = true
  · rw [if_pos hpe]
    rcases (FS.pathExists_iff _ _).mp hpe with ⟨c, hc⟩ | hmem
    · have hinit : lookupA fs.files (pathJoin DOCS_DIR "index.md")
          = some c := by
        rw [← h1f, ← h2f]
        exact hc
      refine ⟨hdd, ⟨c, by rw [h2f, h1f]; exact hinit⟩, ?_, ?_⟩
      · intro c0 hc0
        rw [h2f, h1f]
        exact hc0
      · intro hnone
        rw [hinit] at hnone
        cases hnone
    · exact absurd hmem hnd2
  · rw [if_neg hpe]
    have hinit : lookupA fs.files (pathJoin DOCS_DIR "index.md") = none := by
      cases hc : lookupA fs.files (pathJoin DOCS_DIR "index.md") with
      | none => rfl
      | some c =>
        exfalso
        apply hpe
        refine (FS.pathExists_iff _ _).mpr (Or.inl ⟨c, ?_⟩)
        rw [h2f, h1f]
        exact hc
    have hset : lookupA (((fs.writeFile MKDOCS_CONFIG
        (.yamlConfig (mkdocsConfigOf fs))).ensureDir DOCS_DIR).writeFile
          (pathJoin DOCS_DIR "index.md")
          (.text defaultIndexText)).files (pathJoin DOCS_DIR "index.md")
        = some (FileContent.text defaultIndexText) := by
      rw [FS.writeFile_files, lookupA_setA_self]
    refine ⟨?_, ⟨_, hset⟩, ?_, fun _ => hset⟩
    · rw [FS.writeFile_dirs]
      exact hdd
    · intro c0 hc0
      rw [hinit] at hc0
      cases hc0

/-- Witness for C9 on an empty filesystem, then on its own result (the
landing file created by the first run is preserved by the second). -/
theorem mkdocs_setup_docs_and_index_witness :
    DOCS_DIR ∈ (mkdocs_setup { files := [], dirs := [] }).dirs ∧
    (∃ c, lookupA (mkdocs_setup { files := [], dirs := [] }).files
        (pathJoin DOCS_DIR "index.md") = some c) ∧
    (∀ c0, lookupA (FS.mk [] []).files (pathJoin DOCS_DIR "index.md")
        = some c0 →
      lookupA (mkdocs_setup { files := [], dirs := [] }).files
        (pathJoin DOCS_DIR "index.md") = some c0) ∧
    (lookupA (FS.mk [] []).files (pathJoin DOCS_DIR "index.md") = none →
      lookupA (mkdocs_setup { files := [], dirs := [] }).files
        (pathJoin DOCS_DIR "index.md")
        = some (FileContent.text defaultIndexText)) :=
  mkdocs_setup_docs_and_index { files := [], dirs := [] } rfl
    (by decide)

theorem isObjB_exists (j : Json) (h : j.isObjB = true) :
    ∃ l, j = Json.obj l := by
  cases j with
  | obj l => exact ⟨l, rfl⟩
  | null => exact Bool.noConfusion h
  | bool b => exact Bool.noConfusion h
  | num n => exact Bool.noConfusion h
  | str s => exact Bool.noConfusion h
  | arr l => exact Bool.noConfusion h

theorem truthy_entries_ite {β : Type} (j : Json) (hobj : j.isObjB = true)
    (X : List β) :
    (if j.truthy = true then X else [])
      = (if j.entriesD.isEmpty = true then [] else X) := by
  obtain ⟨l, rfl⟩ := isObjB_exists j hobj
  cases hl : l.isEmpty
  · simp [Json.truthy, Json.entriesD, hl]
  · simp [Json.truthy, Json.entriesD, hl]

/-- C3: the configuration written to `mkdocs.yml` by `mkdocs_setup` has the
nav list Home first, then exactly one entry per metadata document in store
order with label the document's title and target its filename, then a
Templates entry iff the templates store is non-empty, a Prompts entry iff
the prompts store is non-empty, and a Keywords entry iff the keywords store
is non-empty. -/
theorem mkdocs_setup_nav_spec (fs : FS)
    (hm : MetaTitled (load_json fs METADATA_FILE))
    (ht : (load_json fs TEMPLATES_FILE).isObjB = true)
    (hp : (load_json fs PROMPTS_FILE).isObjB = true)
    (hk : (load_json fs KEYWORDS_FILE).isObjB = true) :
    lookupA (mkdocs_setup fs).files MKDOCS_CONFIG
      = some (.yamlConfig (mkdocsConfigOf fs)) ∧
    (mkdocsConfigOf fs).nav
      = ("Home", "index.md")
        :: ((load_json fs METADATA_FILE).entriesD.map
              (fun kv => (titleOf kv.2, kv.1))
            ++ (if (load_json fs TEMPLATES_FILE).entriesD.isEmpty = true
                then [] else [("Templates", "templates.md")])
            ++ (if (load_json fs PROMPTS_FILE).entriesD.isEmpty = true
                then [] else [("Prompts", "prompts.md")])
            ++ (if (load_json fs KEYWORDS_FILE).entriesD.isEmpty = true
                then [] else [("Keywords", "keywords.md")])) ∧
    (∀ kv ∈ (load_json fs METADATA_FILE).entriesD,
      ∃ t, Json.lookupKey kv.2 "title" = some (Json.str t) ∧
        (t, kv.1) ∈ (mkdocsConfigOf fs).nav) := by
  refine ⟨?_, ?_, ?_⟩
  · rw [mkdocs_setup_eq]
    by_cases hpe : ((fs.writeFile MKDOCS_CONFIG
        (.yamlConfig (mkdocsConfigOf fs))).ensureDir DOCS_DIR).pathExists
        (pathJoin DOCS_DIR "index.md") = true
    · rw [if_pos hpe, FS.ensureDir_files, FS.writeFile_files,
        lookupA_setA_self]
    · rw [if_neg hpe, FS.writeFile_files,
        lookupA_setA_ne _ _ _ _ (by decide), FS.ensureDir_files,
        FS.writeFile_files, lookupA_setA_self]
  · show mkdocsNav fs = _
    unfold mkdocsNav
    rw [truthy_entries_ite _ ht, truthy_entries_ite _ hp,
      truthy_entries_ite _ hk]
    simp [List.append_assoc]
  · intro kv hkv
    obtain ⟨l, hl, hall⟩ := hm
    obtain ⟨t, ht2⟩ := hall kv (by rw [hl] at hkv; exact hkv)
    refine ⟨t, ht2, ?_⟩
    show (t, kv.1) ∈ mkdocsNav fs
    unfold mkdocsNav
    have hmem : (t, kv.1) ∈ (load_json fs METADATA_FILE).entriesD.map
        (fun kv => (titleOf kv.2, kv.1)) :=
      List.mem_map.mpr ⟨kv, hkv, by simp [titleOf, ht2]⟩
    exact List.mem_append_left _ (List.mem_append_left _
      (List.mem_append_left _ (List.mem_append_right _ hmem)))

/-- Witness for C3 at the spec example: metadata with one document titled A
and empty templates/prompts/keywords give exactly the nav
`[Home, {A: 2024-01-01-#1.md}]`. -/
theorem mkdocs_setup_nav_spec_witness :
    lookupA (mkdocs_setup navDemoFS).files MKDOCS_CONFIG
      = some (.yamlConfig (mkdocsConfigOf navDemoFS)) ∧
    (mkdocsConfigOf navDemoFS).nav
      = [("Home", "index.md"), ("A", "2024-01-01-#1.md")] := by
  have h := mkdocs_setup_nav_spec navDemoFS
    ⟨[("2024-01-01-#1.md", docMetaJson "A" "C" ["x"])], rfl,
      by
        intro kv hkv
        rw [List.mem_singleton] at hkv
        subst hkv
        exact ⟨"A", rfl⟩⟩
    rfl rfl rfl
  exact ⟨h.1, by rw [h.2.1]; rfl⟩

theorem create_document_fst (fs : FS) (d title category : String)
    (tags : List String) (content : String) :
    (create_document fs d title category tags content).1 =
      ((generate_filename fs d).1.writeFile
          (pathJoin DOCS_DIR (generate_filename fs d).2)
          (.text (frontMatterText title category tags ++ content))).writeFile
        METADATA_FILE
        (.jsonVal ((load_json fs METADATA_FILE).insertKey
          (generate_filename fs d).2
          (docMetaJson title category tags))) := rfl

theorem create_document_snd (fs : FS) (d title category : String)
    (tags : List String) (content : String) :
    (create_document fs d title category tags content).2
      = (generate_filename fs d).2 := rfl

/-- C2 counterexample: invoking the edit branch on the existing document
2024-01-01-#1.md does not write to that filename.  It returns the fresh
name 2024-01-01-#2.md, the original file keeps its old text, and the
metadata store afterwards holds two entries. -/
theorem edit_does_not_update_in_place :
    (document_edit editDemoFS "2024-01-01" "2024-01-01-#1.md" "T2" "C2" []
        "new body").2 = "2024-01-01-#2.md" ∧
    (document_edit editDemoFS "2024-01-01" "2024-01-01-#1.md" "T2" "C2" []
        "new body").2 ≠ "2024-01-01-#1.md" ∧
    lookupA (document_edit editDemoFS "2024-01-01" "2024-01-01-#1.md" "T2"
        "C2" [] "new body").1.files
        (pathJoin DOCS_DIR "2024-01-01-#1.md") = some (.text "old body") ∧
    (load_json (document_edit editDemoFS "2024-01-01" "2024-01-01-#1.md"
        "T2" "C2" [] "new body").1 METADATA_FILE).entriesD.length = 2 :=
  ⟨rfl, by decide, rfl, rfl⟩

/-- C2 (amended): the edit branch invokes the same `create_document`
routine as the add branch.  It generates a fresh filename distinct from the
edited document's, writes a new file under that name, and adds a new
metadata entry; the original document's file and its metadata entry are
left unchanged (orphaned). -/
theorem edit_calls_create_and_orphans_original (fs : FS)
    (d f title category : String) (tags : List String) (content : String)
    (hex : fs.pathExists (pathJoin DOCS_DIR f) = true) :
    document_edit fs d f title category tags content
      = create_document fs d title category tags content ∧
    (document_edit fs d f title category tags content).2 ≠ f ∧
    lookupA (document_edit fs d f title category tags content).1.files
        (pathJoin DOCS_DIR f) = lookupA fs.files (pathJoin DOCS_DIR f) ∧
    ((load_json fs METADATA_FILE).isObjB = true →
      Json.lookupKey (load_json
          (document_edit fs d f title category tags content).1
          METADATA_FILE) f
        = Json.lookupKey (load_json fs METADATA_FILE) f ∧
      Json.lookupKey (load_json
          (document_edit fs d f title category tags content).1
          METADATA_FILE)
          ((document_edit fs d f title category tags content).2)
        = some (docMetaJson title category tags)) := by
  obtain ⟨c, hc0, hname, hfst, hfree, hprev⟩ := generate_filename_spec fs d
  have hne : docFilename d c ≠ f := by
    intro he
    have hex1 : (fs.ensureDir DOCS_DIR).pathExists (pathJoin DOCS_DIR f)
        = true := (FS.pathExists_ensureDir fs DOCS_DIR _).mpr (Or.inr hex)
    have hdp : docFilePath d c = pathJoin DOCS_DIR f := by
      show pathJoin DOCS_DIR (docFilename d c) = pathJoin DOCS_DIR f
      rw [he]
    rw [← hdp] at hex1
    rw [hfree] at hex1
    cases hex1
  have hsnd : (document_edit fs d f title category tags content).2
      = docFilename d c := by
    show (create_document fs d title category tags content).2 = _
    rw [create_document_snd, hname]
  have hpq : pathJoin DOCS_DIR f
      ≠ pathJoin DOCS_DIR (generate_filename fs d).2 := by
    rw [hname]
    intro he
    exact hne (pathJoin_right_inj _ _ _ he).symm
  refine ⟨rfl, by rw [hsnd]; exact hne, ?_, ?_⟩
  · show lookupA (create_document fs d title category tags content).1.files
        (pathJoin DOCS_DIR f) = _
    rw [create_document_fst, FS.writeFile_files,
      lookupA_setA_ne _ _ _ _ (pathJoin_docs_ne _ _ (by decide)),
      FS.writeFile_files, lookupA_setA_ne _ _ _ _ hpq, hfst,
      FS.ensureDir_files]
  · intro hobj
    obtain ⟨l, hl⟩ := isObjB_exists _ hobj
    have hload : load_json
        (document_edit fs d f title category tags content).1 METADATA_FILE
        = (load_json fs METADATA_FILE).insertKey (generate_filename fs d).2
          (docMetaJson title category tags) := by
      show load_json
        (create_document fs d title category tags content).1 METADATA_FILE = _
      rw [create_document_fst]
      exact load_json_writeFile_self _ _ _
    rw [hload, hl]
    have hgf : (generate_filename fs d).2 = docFilename d c := hname
    constructor
    · show lookupA (setA l (generate_filename fs d).2
          (docMetaJson title category tags)) f = lookupA l f
      refine lookupA_setA_ne _ _ _ _ ?_
      rw [hgf]
      exact fun he => hne he.symm
    · rw [hsnd, ← hgf]
      show lookupA (setA l (generate_filename fs d).2
          (docMetaJson title category tags)) (generate_filename fs d).2
        = some (docMetaJson title category tags)
      exact lookupA_setA_self _ _ _

/-- Witness for C2 (amended) on the one-document demonstration state. -/
theorem edit_calls_create_and_orphans_original_witness :
    document_edit editDemoFS "2024-01-01" "2024-01-01-#1.md" "T2" "C2" []
        "new body"
      = create_document editDemoFS "2024-01-01" "T2" "C2" [] "new body" ∧
    (document_edit editDemoFS "2024-01-01" "2024-01-01-#1.md" "T2" "C2" []
        "new body").2 ≠ "2024-01-01-#1.md" ∧
    lookupA (document_edit editDemoFS "2024-01-01" "2024-01-01-#1.md" "T2"
        "C2" [] "new body").1.files
        (pathJoin DOCS_DIR "2024-01-01-#1.md")
      = lookupA editDemoFS.files (pathJoin DOCS_DIR "2024-01-01-#1.md") ∧
    ((load_json editDemoFS METADATA_FILE).isObjB = true →
      Json.lookupKey (load_json (document_edit editDemoFS "2024-01-01"
          "2024-01-01-#1.md" "T2" "C2" [] "new body").1 METADATA_FILE)
          "2024-01-01-#1.md"
        = Json.lookupKey (load_json editDemoFS METADATA_FILE)
            "2024-01-01-#1.md" ∧
      Json.lookupKey (load_json (document_edit editDemoFS "2024-01-01"
          "2024-01-01-#1.md" "T2" "C2" [] "new body").1 METADATA_FILE)
          ((document_edit editDemoFS "2024-01-01" "2024-01-01-#1.md" "T2"
            "C2" [] "new body").2)
        = some (docMetaJson "T2" "C2" [])) :=
  edit_calls_create_and_orphans_original editDemoFS "2024-01-01"
    "2024-01-01-#1.md" "T2" "C2" [] "new body" (by decide)

/-- C1 counterexample: within one day, interleaving a delete lets the next
create reuse the freed suffix.  Starting from an empty filesystem, the
creates return suffixes 1, 2, 1: the generated names are not strictly
increasing and the same filename is generated twice. -/
theorem create_after_delete_reuses_suffix :
    (runDocOps "2024-01-01" { files := [], dirs := [] }
        [DocOp.add ⟨"A", "C", ["x"], "hello"⟩,
         DocOp.add ⟨"B", "C", [], "world"⟩,
         DocOp.del "2024-01-01-#1.md",
         DocOp.add ⟨"D", "E", [], "again"⟩]).2
      = ["2024-01-01-#1.md", "2024-01-01-#2.md", "2024-01-01-#1.md"] ∧
    ¬ ((runDocOps "2024-01-01" { files := [], dirs := [] }
        [DocOp.add ⟨"A", "C", ["x"], "hello"⟩,
         DocOp.add ⟨"B", "C", [], "world"⟩,
         DocOp.del "2024-01-01-#1.md",
         DocOp.add ⟨"D", "E", [], "again"⟩]).2).Nodup := by
  refine ⟨rfl, fun hnd => ?_⟩
  rw [show (runDocOps "2024-01-01" { files := [], dirs := [] }
      [DocOp.add ⟨"A", "C", ["x"], "hello"⟩,
       DocOp.add ⟨"B", "C", [], "world"⟩,
       DocOp.del "2024-01-01-#1.md",
       DocOp.add ⟨"D", "E", [], "again"⟩]).2
    = ["2024-01-01-#1.md", "2024-01-01-#2.md", "2024-01-01-#1.md"]
    from rfl] at hnd
  exact absurd hnd (by decide)

/-- C1 (amended): every `generate_filename` call returns the smallest
positive counter whose file does not currently exist (so a suffix freed by
a delete can be reused later that day); for a sequence of creates with no
interleaved deletes, starting from a state with no files for day `d`, the
returned filenames are exactly `d-#1.md, d-#2.md, …` in order: suffixes
strictly increase from 1 and the filenames are pairwise distinct. -/
theorem create_sequence_suffixes (fs0 : FS) (d : String)
    (as : List DocArgs)
    (hfresh : ∀ c, 0 < c → fs0.pathExists (docFilePath d c) = false) :
    (runDocOps d fs0 (as.map DocOp.add)).2
      = (List.range as.length).map (fun j => docFilename d (j + 1)) ∧
    ((runDocOps d fs0 (as.map DocOp.add)).2).Nodup ∧
    (∀ fs : FS, ∃ c, 0 < c ∧
      (generate_filename fs d).2 = docFilename d c ∧
      (fs.ensureDir DOCS_DIR).pathExists (docFilePath d c) = false ∧
      ∀ j, 0 < j → j < c →
        (fs.ensureDir DOCS_DIR).pathExists (docFilePath d j) = true) := by
  have hinv0 : dayExists fs0 d 0 := by
    intro c hc
    rw [hfresh c hc]
    constructor
    · intro h
      cases h
    · intro h
      omega
  have hrun := runDocOps_creates d as fs0 0 hinv0
  refine ⟨?_, ?_, ?_⟩
  · rw [hrun.1]
    congr 1
    funext j
    show docFilename d (0 + j + 1) = docFilename d (j + 1)
    rw [Nat.zero_add]
  · rw [hrun.1]
    refine List.Nodup.map ?_ (List.nodup_range _)
    intro a b hab
    have := docFilename_inj d (0 + a + 1) (0 + b + 1) hab
    omega
  · intro fs
    obtain ⟨c, h0, h1, _, h3, h4⟩ := generate_filename_spec fs d
    exact ⟨c, h0, h1, h3, h4⟩

/-- Witness for C1 (amended): two creates on a fresh day from an empty
filesystem return suffixes 1 and 2. -/
theorem create_sequence_suffixes_witness :
    (runDocOps "2024-01-01" { files := [], dirs := [] }
        ([⟨"A", "C", ["x"], "hello"⟩,
          ⟨"B", "C", [], "world"⟩].map DocOp.add)).2
      = ["2024-01-01-#1.md", "2024-01-01-#2.md"] := by
  have h := create_sequence_suffixes { files := [], dirs := [] }
    "2024-01-01" [⟨"A", "C", ["x"], "hello"⟩, ⟨"B", "C", [], "world"⟩]
    (fun c hc => rfl)
  rw [h.1]
  rfl
